import Mathlib

/-!
Verification of the persistent-memory chatbot repository
(`src/memory.py`, `src/app.py`, `src/rag.py`) against its specification.

The Python code is shallowly embedded: JSON values are the inductive
`JVal`, the filesystem is a map from paths to file contents, and each
Python function of interest becomes a Lean function on those types.
-/

/-- Message role: `HumanMessage` (User) or `AIMessage` (Assistant). -/
inductive Role where
  | human
  | ai
deriving DecidableEq, Repr

/-- An in-memory chat message (langchain `BaseMessage`): a role and its
text content.  Mirrors the objects held in
`ConversationBufferMemory.chat_memory.messages`. -/
structure Message where
  role : Role
  content : String
deriving DecidableEq, Repr

/-- The langchain type tag of a message: `"human"` or `"ai"`. -/
def roleTag : Role → String
  | .human => "human"
  | .ai => "ai"

mutual
/-- A parsed JSON value as produced by Python `json.load`:
strings, integers, booleans, `None`, arrays and objects (dicts).
(JSON floats never occur in the data this program writes or reads
back, and are not modelled.) -/
inductive JVal where
  | str (s : String)
  | int (n : Int)
  | bool (b : Bool)
  | null
  | arr (xs : JArr)
  | obj (fs : JObj)
deriving Repr
/-- A JSON array (spine made explicit so that recursion over `JVal`
is structural). -/
inductive JArr where
  | nil
  | cons (hd : JVal) (tl : JArr)
deriving Repr
/-- A JSON object: an ordered list of key/value pairs (Python dicts
from `json.load` have distinct keys, in insertion order). -/
inductive JObj where
  | nil
  | cons (k : String) (v : JVal) (tl : JObj)
deriving Repr
end

/-- Build a `JArr` from a Lean list of values. -/
def JArr.ofList : List JVal → JArr
  | [] => .nil
  | v :: tl => .cons v (JArr.ofList tl)

/-- Python `dict.__getitem__` lookup (`None`-free form): first binding
of the key, `none` when the key is absent.  Keys of parsed JSON
objects are distinct, so first-vs-last lookup is immaterial. -/
def JObj.find : JObj → String → Option JVal
  | .nil, _ => none
  | .cons k v tl, key => if k == key then some v else JObj.find tl key

/-- Python `dict.get(key, default)`. -/
def pyGetD (o : JObj) (key : String) (dflt : JVal) : JVal :=
  (o.find key).getD dflt

/-- Whether a JSON value is a Python dict (`isinstance(item, dict)`). -/
def JVal.isObj : JVal → Bool
  | .obj _ => true
  | _ => false

mutual
/-- Python `str()`/`repr()` of a parsed JSON value, in
accumulator-passing style (the accumulator is the text that follows).
Strings render between single quotes, dicts as `\x7b'k': v, ...\x7d`,
lists as `[v, ...]`, `True`/`False`/`None` for the atoms.
(The escaping `repr` applies inside string payloads is not modelled; it
inserts backslashes only at quotes, backslashes and non-printable
characters, none of which occur in the `"HumanMessage"`/`"AIMessage"`
markers this rendering is tested against.) -/
def pyReprAux : JVal → List Char → List Char
  | .str s, acc => '\'' :: (s.data ++ ('\'' :: acc))
  | .int n, acc => (toString n).data ++ acc
  | .bool b, acc => (cond b "True" "False").data ++ acc
  | .null, acc => 'N' :: 'o' :: 'n' :: 'e' :: acc
  | .arr xs, acc => '[' :: pyReprArrAux xs (']' :: acc)
  | .obj fs, acc => '\x7b' :: pyReprObjAux fs ('\x7d' :: acc)
/-- `repr` of the comma-separated items of a list. -/
def pyReprArrAux : JArr → List Char → List Char
  | .nil, acc => acc
  | .cons v .nil, acc => pyReprAux v acc
  | .cons v tl, acc => pyReprAux v (',' :: ' ' :: pyReprArrAux tl acc)
/-- `repr` of the comma-separated `'key': value` entries of a dict. -/
def pyReprObjAux : JObj → List Char → List Char
  | .nil, acc => acc
  | .cons k v .nil, acc => '\'' :: (k.data ++ ('\'' :: ':' :: ' ' :: pyReprAux v acc))
  | .cons k v tl, acc =>
      '\'' :: (k.data ++ ('\'' :: ':' :: ' ' :: pyReprAux v (',' :: ' ' :: pyReprObjAux tl acc)))
end

/-- The characters of Python `str(v)` for a parsed JSON value `v`. -/
def pyReprChars (v : JVal) : List Char := pyReprAux v []

/-- Python substring test `needle in hay` on character lists:
the needle occurs at the start, or somewhere in the tail (an empty
needle is contained in everything). -/
def listContains : List Char → List Char → Bool
  | [], needle => needle.isEmpty
  | hay@(_ :: tl), needle => needle.isPrefixOf hay || listContains tl needle

/-- Python substring test `needle in hay` on strings. -/
def strContains (hay needle : String) : Bool :=
  listContains hay.data needle.data

/-- Python `marker in str(item)` for a parsed JSON value `item`. -/
def mentions (v : JVal) (marker : String) : Bool :=
  listContains (pyReprChars v) marker.data

/-- The whitespace characters removed by Python `str.strip()`
(space, tab, newline, carriage return, vertical tab, form feed). -/
def isPySpace (ch : Char) : Bool :=
  ch == ' ' || ch == '\t' || ch == '\n' || ch == '\r' || ch == '\x0b' || ch == '\x0c'

/-- Python `str.strip()` on a character list: drop leading whitespace,
then trailing whitespace. -/
def pyStripChars (l : List Char) : List Char :=
  ((l.dropWhile isPySpace).reverse.dropWhile isPySpace).reverse

/-- Python `str.strip()`. -/
def pyStrip (s : String) : String :=
  ⟨pyStripChars s.data⟩

/-- `item.get("type", "") == t` from `memory.py:57` (`msg_type` test):
a Python `==` against a string literal is `True` exactly when the
looked-up value is that string. -/
def typeIs (fields : JObj) (t : String) : Bool :=
  match pyGetD fields "type" (.str "") with
  | .str s => s == t
  | _ => false

/-- The value produced by
`item.get("data", \x7b\x7d).get("content", item.get("content", ""))`
(`memory.py:55`, `app.py:73`).  When the `"data"` entry exists but is
not a dict, the second `.get` raises `AttributeError` (modelled as
`.error ()`), which the callers catch at an outer level. -/
def extractRaw (fields : JObj) : Except Unit JVal :=
  match pyGetD fields "data" (.obj .nil) with
  | .obj d => .ok (pyGetD d "content" (pyGetD fields "content" (.str "")))
  | _ => .error ()

/-- `memory.py:55`: the extracted content with `.strip()` applied.
`.strip()` on a non-string value raises `AttributeError`
(modelled as `.error ()`). -/
def extractContent (fields : JObj) : Except Unit String :=
  match extractRaw fields with
  | .ok (.str s) => .ok (pyStrip s)
  | .ok _ => .error ()
  | .error _ => .error ()

/-- One iteration of the validation loop of `_verify_and_load`
(`memory.py:51-66`): non-dict entries are skipped, the content is
extracted and stripped (possibly raising), empty content is skipped,
then the record is classified —
`if msg_type == "human" or "HumanMessage" in str(item)` as a
`HumanMessage`, `elif msg_type == "ai" or "AIMessage" in str(item)` as
an `AIMessage`, anything else is dropped. -/
def processEntry (v : JVal) : Except Unit (Option Message) :=
  match v with
  | .obj fields =>
    match extractContent fields with
    | .error e => .error e
    | .ok content =>
      if content = "" then .ok none
      else if typeIs fields "human" || mentions v "HumanMessage" then
        .ok (some ⟨.human, content⟩)
      else if typeIs fields "ai" || mentions v "AIMessage" then
        .ok (some ⟨.ai, content⟩)
      else .ok none
  | _ => .ok none

/-- The whole validation loop of `_verify_and_load` over the parsed
JSON array: an exception in any iteration aborts the loop (and is
handled by the caller); otherwise the valid messages are collected in
order. -/
def processItems : JArr → Except Unit (List Message)
  | .nil => .ok []
  | .cons v tl =>
    match processEntry v with
    | .error e => .error e
    | .ok none => processItems tl
    | .ok (some m) => (processItems tl).map (fun ms => m :: ms)

/-- On-disk content of one file: either text that parses as JSON
(represented by its parse), or raw bytes that `json.load` rejects. -/
inductive FileContent where
  | json (v : JVal)
  | invalid (bytes : String)
deriving Repr

/-- The filesystem: a map from absolute paths to file contents.
`none` means the path does not exist. -/
abbrev FS := String → Option FileContent

/-- Writing a file (creating or truncating it). -/
def fsWrite (fs : FS) (p : String) (c : FileContent) : FS :=
  fun q => if q = p then some c else fs q

/-- `os.remove`. -/
def fsRemove (fs : FS) (p : String) : FS :=
  fun q => if q = p then none else fs q

/-- POSIX `os.rename`: the destination receives the source content
(silently replacing any existing destination file) and the source
ceases to exist.  Renaming a path onto itself is a no-op. -/
def fsRename (fs : FS) (src dst : String) : FS :=
  if src = dst then fs
  else fun q => if q = src then none else if q = dst then fs src else fs q

/-- `_backup_and_reset` (`memory.py:106-116`): if the store file
exists, rename it to `path + ".bak"`, then clear the in-memory
conversation.  Returns the (empty) message list and the new
filesystem. -/
def backup_and_reset (path : String) (fs : FS) : List Message × FS :=
  let fs' := if (fs path).isSome then fsRename fs path (path ++ ".bak") else fs
  ([], fs')

/-- `_verify_and_load` (`memory.py:38-75`), run from `__init__` with an
empty in-memory conversation: a missing store file yields the empty
conversation; a file that fails to read, parse or validate (invalid
JSON, a non-list top level, or an `AttributeError` while extracting a
record) is handled by `backup_and_reset`; otherwise the validated
messages are installed (the assignment is guarded by
`if validated_messages:`, which on an empty result leaves the fresh
empty conversation in place). -/
def verify_and_load (path : String) (fs : FS) : List Message × FS :=
  match fs path with
  | none => ([], fs)
  | some (.invalid _) => backup_and_reset path fs
  | some (.json v) =>
    match v with
    | .arr items =>
      match processItems items with
      | .error _ => backup_and_reset path fs
      | .ok msgs => (if msgs.isEmpty then [] else msgs, fs)
    | _ => backup_and_reset path fs

/-- langchain `message_to_dict`: the nested wire shape
`\x7b"type": tag, "data": \x7b"content": ..., ...\x7d\x7d` written by
`_atomic_save`.  The further `data` fields langchain emits
(`name`, `id`, `example`, ...) are constant scaffolding the loader
never reads and are omitted. -/
def message_to_dict (m : Message) : JVal :=
  .obj (.cons "type" (.str (roleTag m.role))
    (.cons "data"
      (.obj (.cons "content" (.str m.content)
        (.cons "additional_kwargs" (.obj .nil)
          (.cons "response_metadata" (.obj .nil)
            (.cons "type" (.str (roleTag m.role)) .nil)))))
      .nil))

/-- `memory.py:136`: the messages `_atomic_save` serializes —
`[m for m in messages if getattr(m, "content", None)]` keeps exactly
the messages whose content string is truthy (non-empty). -/
def savedMessages (msgs : List Message) : List Message :=
  msgs.filter (fun m => m.content != "")

/-- The JSON records `_atomic_save` writes. -/
def savedRecords (msgs : List Message) : List JVal :=
  (savedMessages msgs).map message_to_dict

/-- The full store-file payload written by `_atomic_save`. -/
def savedPayload (msgs : List Message) : FileContent :=
  .json (.arr (JArr.ofList (savedRecords msgs)))

/-- State of the filesystem after `_atomic_save` (`memory.py:133-154`)
has written the temporary file `path + ".tmp"` but before it touches
the real store file. -/
def atomicSaveTemp (path : String) (msgs : List Message) (fs : FS) : FS :=
  fsWrite fs (path ++ ".tmp") (savedPayload msgs)

/-- State of the filesystem after `_atomic_save` has additionally
executed `if os.path.exists(self.path): os.remove(self.path)`
(`memory.py:143-144`). -/
def atomicSaveRemoved (path : String) (msgs : List Message) (fs : FS) : FS :=
  let s1 := atomicSaveTemp path msgs fs
  if (s1 path).isSome then fsRemove s1 path else s1

/-- State of the filesystem after `_atomic_save` has completed:
`os.rename(temp_path, self.path)` (`memory.py:145`). -/
def atomic_save (path : String) (msgs : List Message) (fs : FS) : FS :=
  fsRename (atomicSaveRemoved path msgs fs) (path ++ ".tmp") path

/-- `save_context` (`memory.py:118-131`): both the input and the
output text must be truthy (non-empty), the human then the AI message
are appended to the conversation
(langchain `ConversationBufferMemory.save_context`), and
`_atomic_save` flushes the new conversation to disk.  Validation
failures raise (`.error ()`). -/
def save_context (path : String) (msgs : List Message) (fs : FS)
    (inp outp : String) : Except Unit (List Message × FS) :=
  if inp = "" || outp = "" then .error ()
  else
    let msgs' := msgs ++ [⟨.human, inp⟩, ⟨.ai, outp⟩]
    .ok (msgs', atomic_save path msgs' fs)

/-- A flat legacy record `\x7b"type": t, "content": c\x7d`. -/
def mkFlat (t c : String) : JVal :=
  .obj (.cons "type" (.str t) (.cons "content" (.str c) .nil))

/-- A nested record `\x7b"type": t, "data": \x7b"content": c\x7d\x7d`. -/
def mkNested (t c : String) : JVal :=
  .obj (.cons "type" (.str t) (.cons "data" (.obj (.cons "content" (.str c) .nil)) .nil))

/-- The `data.content` entry of a persisted record, as written
(no stripping): used to state what `_atomic_save` put in the file. -/
def recordDataContent (v : JVal) : Option JVal :=
  match v with
  | .obj fs =>
    match fs.find "data" with
    | some (.obj d) => d.find "content"
    | _ => none
  | _ => none

/-- An entry of the Streamlit transcript `st.session_state.messages`:
a role string (`"user"`/`"assistant"`) and the content value taken
from the record (`app.py` performs no `.strip()` and no string check,
so the content can be any truthy JSON value). -/
structure ChatMsg where
  role : String
  content : JVal
deriving Repr

/-- Python truthiness of a parsed JSON value. -/
def pyTruthy : JVal → Bool
  | .str s => s != ""
  | .int n => n != 0
  | .bool b => b
  | .null => false
  | .arr xs => !(match xs with | .nil => true | _ => false)
  | .obj fs => !(match fs with | .nil => true | _ => false)

/-- `app.py:74`: `role = "user" if msg.get("type") == "human" else
"assistant"`. -/
def appRoleOf (fields : JObj) : String :=
  match fields.find "type" with
  | some (.str t) => if t == "human" then "user" else "assistant"
  | _ => "assistant"

/-- The first loop of `load_chat_history` (`app.py:63-77`): read the
store file directly and append every dict record with truthy content,
with no deduplication.  The `Bool` is `false` when an iteration raised
(`AttributeError` from a non-dict `"data"` value), which aborts the
whole `try` block of `load_chat_history`; the entries appended so far
remain (the list is mutated in place). -/
def filePart : JArr → List ChatMsg → List ChatMsg × Bool
  | .nil, acc => (acc, true)
  | .cons v tl, acc =>
    match v with
    | .obj fields =>
      match extractRaw fields with
      | .error _ => (acc, false)
      | .ok content =>
        if pyTruthy content then
          filePart tl (acc ++ [⟨appRoleOf fields, content⟩])
        else filePart tl acc
    | _ => filePart tl acc

/-- The second loop of `load_chat_history` (`app.py:80-88`), which is
meant to merge the langchain in-memory messages with
content-deduplication.  `app.py` never imports `HumanMessage`, so the
`isinstance(msg, HumanMessage)` test raises `NameError` on every
iteration; the surrounding per-message `try/except` logs the error and
continues, so the loop appends nothing. -/
def langchainStep (acc : List ChatMsg) (_m : Message) : List ChatMsg :=
  acc

/-- Folding `langchainStep` over the in-memory conversation. -/
def langchainPart (mem : List Message) (acc : List ChatMsg) : List ChatMsg :=
  mem.foldl langchainStep acc

/-- `load_chat_history` (`app.py:59-89`) run on an initially empty
transcript: `file` is the content of `chat_memory.json` (`none` when
the file does not exist) and `mem` the in-memory conversation held by
the `PersistentChatMemory` instance.  A `json.load` failure, a
non-iterable top level, or an extraction error aborts the `try` block,
skipping everything after it. -/
def load_chat_history (file : Option FileContent) (mem : List Message) :
    List ChatMsg :=
  match file with
  | none => langchainPart mem []
  | some (.invalid _) => []
  | some (.json v) =>
    match v with
    | .arr items =>
      match filePart items [] with
      | (acc, true) => langchainPart mem acc
      | (acc, false) => acc
    | .obj _ => langchainPart mem []
    | .str _ => langchainPart mem []
    | _ => []

/-- The state of `RAGSystem` (`rag.py`): `self.vector_db` is `None`
until `process_pdf` succeeds.  The vector store itself is an external
collaborator; it is carried as the list of indexed fragments. -/
structure RAGSystem where
  vector_db : Option (List String)

/-- `RAGSystem.__init__` (`rag.py:16-41`): `self.vector_db = None`. -/
def RAGSystem.mkNew : RAGSystem := ⟨none⟩

/-- Modelled from the spec: the external vector index
(`Chroma.similarity_search`) answers a top-`k` nearest-neighbour query
over the indexed fragments; the ranking itself is out of scope, only
that it returns normally once an index exists. -/
def similaritySearch (db : List String) (_question : String) (k : Nat) :
    List String :=
  db.take k

/-- `process_pdf` (`rag.py:43-62`): the external loader/splitter
produced `chunks`; the vector index is (re)built from them and the
fragment count returned. -/
def process_pdf (_st : RAGSystem) (chunks : List String) : RAGSystem × Nat :=
  (⟨some chunks⟩, chunks.length)

/-- `query` (`rag.py:64-70`): `raise ValueError("Primero debes cargar
un documento PDF.")` when no document has been indexed, otherwise
delegate to the vector store. -/
def RAGSystem.query (st : RAGSystem) (question : String) (k : Nat) :
    Except String (List String) :=
  match st.vector_db with
  | none => .error "Primero debes cargar un documento PDF."
  | some db => .ok (similaritySearch db question k)

/-- The kinds of entries the record-filtering property (C3) mixes in
one load input: valid human/ai records in nested or flat shape,
records with empty (or whitespace-only) content, and non-dict
entries. -/
inductive TestEntry where
  | humanNested (c : String)
  | humanFlat (c : String)
  | aiNested (c : String)
  | aiFlat (c : String)
  | emptyNested (t c : String)
  | emptyFlat (t c : String)
  | nonDict (v : JVal)

/-- The JSON value of a test entry. -/
def TestEntry.toJVal : TestEntry → JVal
  | .humanNested c => mkNested "human" c
  | .humanFlat c => mkFlat "human" c
  | .aiNested c => mkNested "ai" c
  | .aiFlat c => mkFlat "ai" c
  | .emptyNested t c => mkNested t c
  | .emptyFlat t c => mkFlat t c
  | .nonDict v => v

/-- Side conditions making a test entry what it claims to be: valid
records carry non-empty already-stripped content (and, for ai records,
content free of the `"HumanMessage"` marker, see C3's counterexample),
empty records carry content that strips to nothing, non-dict entries
are not objects. -/
def TestEntry.ok : TestEntry → Prop
  | .humanNested c => pyStrip c = c ∧ c ≠ ""
  | .humanFlat c => pyStrip c = c ∧ c ≠ ""
  | .aiNested c => pyStrip c = c ∧ c ≠ "" ∧ strContains c "HumanMessage" = false
  | .aiFlat c => pyStrip c = c ∧ c ≠ "" ∧ strContains c "HumanMessage" = false
  | .emptyNested _ c => pyStrip c = ""
  | .emptyFlat _ c => pyStrip c = ""
  | .nonDict v => v.isObj = false

/-- The messages a test entry contributes to the loaded conversation. -/
def TestEntry.out : TestEntry → List Message
  | .humanNested c => [⟨.human, c⟩]
  | .humanFlat c => [⟨.human, c⟩]
  | .aiNested c => [⟨.ai, c⟩]
  | .aiFlat c => [⟨.ai, c⟩]
  | .emptyNested _ _ => []
  | .emptyFlat _ _ => []
  | .nonDict _ => []

/-- `String.mk` and `String.data` are inverse. -/
theorem strData_mk (l : List Char) : (String.mk l).data = l := rfl

/-- A string is never equal to itself extended by a non-empty suffix
(used for `path ≠ path ++ ".tmp"` and `path ≠ path ++ ".bak"`). -/
theorem self_ne_append (s t : String) (ht : t ≠ "") : s ≠ s ++ t := by
  intro h
  apply ht
  have hlen := congrArg String.length h
  rw [String.length_append] at hlen
  have : t.length = 0 := by omega
  have hd : t.data.length = 0 := this
  apply String.ext
  simpa using List.length_eq_zero.mp hd

/-- Characterization of the substring test: the needle occurs iff the
haystack splits around it. -/
theorem listContains_iff (hay n : List Char) :
    listContains hay n = true ↔ ∃ pre post, hay = pre ++ n ++ post := by
  induction hay with
  | nil =>
    simp only [listContains, List.isEmpty_iff]
    constructor
    · rintro rfl
      exact ⟨[], [], rfl⟩
    · rintro ⟨pre, post, h⟩
      rcases List.append_eq_nil.mp h.symm with ⟨h1, h2⟩
      exact (List.append_eq_nil.mp h1).2
  | cons a tl ih =>
    simp only [listContains, Bool.or_eq_true, List.isPrefixOf_iff_prefix, ih]
    constructor
    · rintro (⟨t, ht⟩ | ⟨pre, post, h⟩)
      · exact ⟨[], t, by simp [ht]⟩
      · exact ⟨a :: pre, post, by simp [h]⟩
    · rintro ⟨pre, post, h⟩
      cases pre with
      | nil =>
        left
        exact ⟨post, by simpa using h.symm⟩
      | cons p pre' =>
        right
        simp only [List.cons_append, List.cons.injEq] at h
        exact ⟨pre', post, h.2⟩

/-- A substring of the left part is a substring of the whole. -/
theorem listContains_append_left (c B n : List Char)
    (h : listContains c n = true) : listContains (c ++ B) n = true := by
  rw [listContains_iff] at h ⊢
  obtain ⟨pre, post, rfl⟩ := h
  exact ⟨pre, post ++ B, by simp⟩

/-- Appending a suffix that starts with a character the needle does not
contain, and that does not itself contain the needle, does not change
the substring test: an occurrence cannot cross into such a suffix. -/
theorem contains_append_sentinel (c B' n : List Char) (q' : Char)
    (hq : q' ∉ n) (hB : listContains (q' :: B') n = false) :
    listContains (c ++ (q' :: B')) n = listContains c n := by
  cases hc : listContains c n with
  | true => exact listContains_append_left c (q' :: B') n hc
  | false =>
    rw [Bool.eq_false_iff]
    intro h
    rw [listContains_iff] at h
    obtain ⟨pre, post, heq⟩ := h
    rw [List.append_assoc] at heq
    rcases List.append_eq_append_iff.mp heq with ⟨k, hpre, hk⟩ | ⟨k, hc2, hk⟩
    · have : listContains (q' :: B') n = true :=
        (listContains_iff _ _).mpr ⟨k, post, by rw [hk, List.append_assoc]⟩
      rw [hB] at this
      exact Bool.false_ne_true this
    · rcases List.append_eq_append_iff.mp hk with ⟨j, hkj, hpost⟩ | ⟨j, hnj, hjb⟩
      · have : listContains c n = true :=
          (listContains_iff _ _).mpr ⟨pre, j, by rw [hc2, hkj, List.append_assoc]⟩
        rw [hc] at this
        exact Bool.false_ne_true this
      · cases j with
        | nil =>
          have hnk : n = k := by simpa using hnj
          have : listContains c n = true :=
            (listContains_iff _ _).mpr ⟨pre, [], by simp [hc2, hnk]⟩
          rw [hc] at this
          exact Bool.false_ne_true this
        | cons x j' =>
          have hx : x = q' := by
            simp only [List.cons_append, List.cons.injEq] at hjb
            exact hjb.1.symm
          have hxn : x ∈ n := by
            rw [hnj]
            exact List.mem_append_right k (List.mem_cons_self x j')
          exact hq (hx ▸ hxn)

/-- `"HumanMessage" in str(item)` for a flat ai record depends only on
the content text: the fixed scaffolding contains no such marker and an
occurrence cannot straddle the closing quote. -/
theorem mentions_mkFlat_ai (c : String) :
    mentions (mkFlat "ai" c) "HumanMessage" = strContains c "HumanMessage" := by
  have h : mentions (mkFlat "ai" c) "HumanMessage" =
      listContains (c.data ++ ('\'' :: '\x7d' :: [])) "HumanMessage".data := rfl
  rw [h, contains_append_sentinel c.data ('\x7d' :: []) "HumanMessage".data '\''
    (by decide) (by decide)]
  rfl

/-- `"HumanMessage" in str(item)` for a nested ai record depends only
on the content text. -/
theorem mentions_mkNested_ai (c : String) :
    mentions (mkNested "ai" c) "HumanMessage" = strContains c "HumanMessage" := by
  have h : mentions (mkNested "ai" c) "HumanMessage" =
      listContains (c.data ++ ('\'' :: '\x7d' :: '\x7d' :: [])) "HumanMessage".data := rfl
  rw [h, contains_append_sentinel c.data ('\x7d' :: '\x7d' :: []) "HumanMessage".data '\''
    (by decide) (by decide)]
  rfl

/-- `"HumanMessage" in str(item)` for a record written by
`_atomic_save` for an AI message depends only on the content text. -/
theorem mentions_message_to_dict_ai (c : String) :
    mentions (message_to_dict ⟨.ai, c⟩) "HumanMessage" = strContains c "HumanMessage" := by
  have h : mentions (message_to_dict ⟨.ai, c⟩) "HumanMessage" =
      listContains (c.data ++ ('\'' :: ',' :: ' ' ::
        pyReprObjAux (.cons "additional_kwargs" (.obj .nil)
          (.cons "response_metadata" (.obj .nil)
            (.cons "type" (.str "ai") .nil))) ('\x7d' :: '\x7d' :: []))) "HumanMessage".data := rfl
  rw [h, contains_append_sentinel c.data (',' :: ' ' ::
        pyReprObjAux (.cons "additional_kwargs" (.obj .nil)
          (.cons "response_metadata" (.obj .nil)
            (.cons "type" (.str "ai") .nil))) ('\x7d' :: '\x7d' :: [])) "HumanMessage".data '\''
    (by decide) (by decide)]
  rfl

/-- Dropping while a predicate holds is idempotent. -/
theorem dropWhile_idem {α : Type} (p : α → Bool) (l : List α) :
    List.dropWhile p (List.dropWhile p l) = List.dropWhile p l := by
  induction l with
  | nil => rfl
  | cons a t ih =>
    by_cases h : p a
    · simp [List.dropWhile_cons, h, ih]
    · simp [List.dropWhile_cons, h]

/-- The head of a `dropWhile` result falsifies the predicate. -/
theorem dropWhile_eq_cons_head {α : Type} (p : α → Bool) (l : List α) (a : α)
    (t : List α) (h : l.dropWhile p = a :: t) : p a = false := by
  have hh := List.head?_dropWhile_not p l
  rw [h] at hh
  simpa using hh

/-- Python `strip()` is idempotent (character-list level). -/
theorem pyStripChars_idem (l : List Char) :
    pyStripChars (pyStripChars l) = pyStripChars l := by
  have hpre : pyStripChars l <+: l.dropWhile isPySpace := by
    have h1 := List.reverse_prefix.mpr
      (List.dropWhile_suffix isPySpace :
        ((l.dropWhile isPySpace).reverse.dropWhile isPySpace) <:+ (l.dropWhile isPySpace).reverse)
    rwa [List.reverse_reverse] at h1
  have key : ∀ m : List Char,
      (∀ a t, m = a :: t → isPySpace a = false) →
      (∀ a t, m.reverse = a :: t → isPySpace a = false) →
      pyStripChars m = m := by
    intro m h1 h2
    have d1 : m.dropWhile isPySpace = m := by
      cases hm : m with
      | nil => simp
      | cons a t => rw [List.dropWhile_cons, h1 a t hm]; simp
    have d2 : m.reverse.dropWhile isPySpace = m.reverse := by
      cases hm : m.reverse with
      | nil => simp
      | cons a t => rw [List.dropWhile_cons, h2 a t hm]; simp
    show ((m.dropWhile isPySpace).reverse.dropWhile isPySpace).reverse = m
    rw [d1, d2, List.reverse_reverse]
  apply key
  · intro a t h
    obtain ⟨rest, hcat⟩ := hpre
    rw [h] at hcat
    exact dropWhile_eq_cons_head isPySpace l a (t ++ rest) (by simpa using hcat.symm)
  · intro a t h
    have h2 : ((l.dropWhile isPySpace).reverse.dropWhile isPySpace).reverse.reverse = a :: t := h
    rw [List.reverse_reverse] at h2
    exact dropWhile_eq_cons_head isPySpace (l.dropWhile isPySpace).reverse a t h2

/-- Python `strip()` is idempotent. -/
theorem pyStrip_idem (s : String) : pyStrip (pyStrip s) = pyStrip s :=
  String.ext (pyStripChars_idem s.data)

/-- After `_atomic_save` completes, the store file holds exactly the
new payload. -/
theorem atomicSave_self (path : String) (msgs : List Message) (fs : FS) :
    atomic_save path msgs fs path = some (savedPayload msgs) := by
  have htmp : ¬(path ++ ".tmp" = path) := fun h => self_ne_append path ".tmp" (by decide) h.symm
  have htmp' : ¬(path = path ++ ".tmp") := fun h => htmp h.symm
  by_cases hfs : (fs path).isSome <;>
    simp [atomic_save, atomicSaveRemoved, atomicSaveTemp, fsRename, fsRemove, fsWrite,
      htmp, htmp', hfs]

/-- `processEntry` on a record `_atomic_save` wrote for a message with
non-empty, already-stripped content (whose text, if the message is an
AI message, does not contain the `"HumanMessage"` marker) yields that
very message back. -/
theorem processEntry_mtd (m : Message) (h1 : m.content ≠ "")
    (h2 : pyStrip m.content = m.content)
    (h3 : m.role = .ai → strContains m.content "HumanMessage" = false) :
    processEntry (message_to_dict m) = .ok (some m) := by
  obtain ⟨r, c⟩ := m
  replace h1 : c ≠ "" := h1
  replace h2 : pyStrip c = c := h2
  replace h3 : r = .ai → strContains c "HumanMessage" = false := h3
  cases r with
  | human =>
    have hexp : processEntry (message_to_dict ⟨.human, c⟩) =
        (if pyStrip c = "" then Except.ok none
         else Except.ok (some ⟨.human, pyStrip c⟩)) := rfl
    rw [hexp, if_neg (by rw [h2]; exact h1), h2]
  | ai =>
    have hfalse : mentions (message_to_dict ⟨.ai, c⟩) "HumanMessage" = false := by
      rw [mentions_message_to_dict_ai c]
      exact h3 rfl
    have hexp : processEntry (message_to_dict ⟨.ai, c⟩) =
        (if pyStrip c = "" then Except.ok none
         else if mentions (message_to_dict ⟨.ai, c⟩) "HumanMessage" then
           Except.ok (some ⟨.human, pyStrip c⟩)
         else Except.ok (some ⟨.ai, pyStrip c⟩)) := rfl
    rw [hexp, if_neg (by rw [h2]; exact h1), hfalse]
    simp [h2]

/-- `processEntry` never raises on a record `_atomic_save` wrote. -/
theorem processEntry_mtd_ok (m : Message) :
    ∃ r, processEntry (message_to_dict m) = .ok r := by
  obtain ⟨r, c⟩ := m
  cases r with
  | human =>
    have hexp : processEntry (message_to_dict ⟨.human, c⟩) =
        (if pyStrip c = "" then Except.ok none
         else Except.ok (some ⟨.human, pyStrip c⟩)) := rfl
    rw [hexp]
    by_cases h : pyStrip c = "" <;> simp [h]
  | ai =>
    have hexp : processEntry (message_to_dict ⟨.ai, c⟩) =
        (if pyStrip c = "" then Except.ok none
         else if mentions (message_to_dict ⟨.ai, c⟩) "HumanMessage" then
           Except.ok (some ⟨.human, pyStrip c⟩)
         else Except.ok (some ⟨.ai, pyStrip c⟩)) := rfl
    rw [hexp]
    by_cases h : pyStrip c = ""
    · simp [h]
    · cases hm : mentions (message_to_dict ⟨.ai, c⟩) "HumanMessage" <;> simp [h, hm]

/-- Inversion for `Except.map` returning `.ok`. -/
theorem except_map_ok {ε α β : Type} (f : α → β) (x : Except ε α) (y : β)
    (h : x.map f = .ok y) : ∃ a, x = .ok a ∧ f a = y := by
  cases x with
  | error e => simp [Except.map] at h
  | ok a => exact ⟨a, rfl, by simpa [Except.map] using h⟩

/-- The validation loop distributes over concatenation of inputs when
neither part raises. -/
theorem processItems_ofList_append (l1 l2 : List JVal) (o1 o2 : List Message)
    (h1 : processItems (JArr.ofList l1) = .ok o1)
    (h2 : processItems (JArr.ofList l2) = .ok o2) :
    processItems (JArr.ofList (l1 ++ l2)) = .ok (o1 ++ o2) := by
  induction l1 generalizing o1 with
  | nil =>
    have h1' : Except.ok ([] : List Message) = Except.ok o1 := h1
    injection h1' with h1''
    subst h1''
    simpa using h2
  | cons v tl ih =>
    rw [List.cons_append]
    show processItems (.cons v (JArr.ofList (tl ++ l2))) = .ok (o1 ++ o2)
    have h1' : processItems (.cons v (JArr.ofList tl)) = .ok o1 := h1
    simp only [processItems] at h1' ⊢
    cases he : processEntry v with
    | error e =>
      rw [he] at h1'
      have h1'' : Except.error e = Except.ok o1 := h1'
      exact Except.noConfusion h1''
    | ok o =>
      rw [he] at h1'
      cases o with
      | none =>
        have h3 : processItems (JArr.ofList tl) = Except.ok o1 := h1'
        show processItems (JArr.ofList (tl ++ l2)) = Except.ok (o1 ++ o2)
        exact ih o1 h3
      | some mm =>
        have h3 : (processItems (JArr.ofList tl)).map (fun ms => mm :: ms) = Except.ok o1 := h1'
        obtain ⟨oo, hpi, hfo⟩ := except_map_ok _ _ _ h3
        have hfo' : mm :: oo = o1 := hfo
        show (processItems (JArr.ofList (tl ++ l2))).map (fun ms => mm :: ms) =
          Except.ok (o1 ++ o2)
        rw [ih oo hpi]
        show Except.ok (mm :: (oo ++ o2)) = Except.ok (o1 ++ o2)
        rw [← hfo']
        simp

/-- Loading the records `_atomic_save` wrote for well-formed messages
(non-empty stripped content, no `"HumanMessage"` marker inside AI
content) recovers the messages exactly. -/
theorem processItems_mtd (msgs : List Message)
    (h : ∀ m ∈ msgs, m.content ≠ "" ∧ pyStrip m.content = m.content ∧
      (m.role = .ai → strContains m.content "HumanMessage" = false)) :
    processItems (JArr.ofList (msgs.map message_to_dict)) = .ok msgs := by
  induction msgs with
  | nil => rfl
  | cons m tl ih =>
    have hm := h m (List.mem_cons_self m tl)
    simp only [List.map_cons]
    show processItems (.cons (message_to_dict m) (JArr.ofList (tl.map message_to_dict))) = _
    simp only [processItems]
    rw [processEntry_mtd m hm.1 hm.2.1 hm.2.2,
      ih (fun x hx => h x (List.mem_cons_of_mem m hx))]
    rfl

/-- Loading the records `_atomic_save` wrote never raises, whatever
the messages were. -/
theorem processItems_mtd_ok (msgs : List Message) :
    ∃ out, processItems (JArr.ofList (msgs.map message_to_dict)) = .ok out := by
  induction msgs with
  | nil => exact ⟨[], rfl⟩
  | cons m tl ih =>
    obtain ⟨out, hout⟩ := ih
    obtain ⟨r, hr⟩ := processEntry_mtd_ok m
    cases r with
    | none =>
      refine ⟨out, ?_⟩
      simp only [List.map_cons]
      show processItems (.cons (message_to_dict m) (JArr.ofList (tl.map message_to_dict))) = _
      simp only [processItems]
      rw [hr, hout]
    | some mm =>
      refine ⟨mm :: out, ?_⟩
      simp only [List.map_cons]
      show processItems (.cons (message_to_dict m) (JArr.ofList (tl.map message_to_dict))) = _
      simp only [processItems]
      rw [hr, hout]
      rfl

/-- The `if validated_messages:` guard is the identity on the loaded
list. -/
theorem ite_isEmpty {α : Type} (l : List α) :
    (if l.isEmpty then ([] : List α) else l) = l := by
  cases l <;> simp

/-- What `_backup_and_reset` does when the store file exists: the file
moves wholesale (same bytes) to the `.bak` path, replacing any
previous backup; the store path ceases to exist; nothing else changes;
the conversation is reset to empty. -/
theorem backup_spec (path : String) (fs : FS) (c : FileContent)
    (hc : fs path = some c) :
    (backup_and_reset path fs).1 = [] ∧
    (backup_and_reset path fs).2 (path ++ ".bak") = some c ∧
    (backup_and_reset path fs).2 path = none ∧
    (∀ p, p ≠ path → p ≠ path ++ ".bak" → (backup_and_reset path fs).2 p = fs p) := by
  have hbak : ¬(path = path ++ ".bak") := self_ne_append path ".bak" (by decide)
  have hbak' : ¬(path ++ ".bak" = path) := fun h => hbak h.symm
  refine ⟨rfl, ?_, ?_, ?_⟩
  · simp [backup_and_reset, hc, fsRename, hbak, hbak']
  · simp [backup_and_reset, hc, fsRename, hbak]
  · intro p hp1 hp2
    simp [backup_and_reset, hc, fsRename, hbak, hp1, hp2]

/-- `_verify_and_load` on a store file that parses as a JSON array
reduces to the validation loop. -/
theorem verify_and_load_json_arr (path : String) (fs : FS) (items : JArr)
    (hj : fs path = some (.json (.arr items))) :
    verify_and_load path fs =
      (match processItems items with
       | .error _ => backup_and_reset path fs
       | .ok msgs => (if msgs.isEmpty then [] else msgs, fs)) := by
  simp only [verify_and_load]
  rw [hj]

/-- C2: loading never raises.  A missing store file yields the empty
conversation with the filesystem untouched.  A store file whose bytes
are not valid JSON — and likewise one that parses but is not a list,
or whose validation loop raises — yields the empty conversation, and
the corrupt file is moved aside to the `.bak` path with its original
bytes (silently replacing any existing `.bak`); nothing else on the
filesystem changes. -/
theorem C2_load_fails_soft (path : String) (fs : FS) :
    (fs path = none → verify_and_load path fs = ([], fs)) ∧
    (∀ bytes, fs path = some (.invalid bytes) →
      (verify_and_load path fs).1 = [] ∧
      (verify_and_load path fs).2 (path ++ ".bak") = some (.invalid bytes) ∧
      (verify_and_load path fs).2 path = none ∧
      (∀ p, p ≠ path → p ≠ path ++ ".bak" → (verify_and_load path fs).2 p = fs p)) ∧
    (∀ v, fs path = some (.json v) → (∀ items, v ≠ .arr items) →
      (verify_and_load path fs).1 = [] ∧
      (verify_and_load path fs).2 (path ++ ".bak") = some (.json v) ∧
      (verify_and_load path fs).2 path = none) ∧
    (∀ items, fs path = some (.json (.arr items)) → processItems items = .error () →
      (verify_and_load path fs).1 = [] ∧
      (verify_and_load path fs).2 (path ++ ".bak") = some (.json (.arr items)) ∧
      (verify_and_load path fs).2 path = none) := by
  refine ⟨?_, ?_, ?_, ?_⟩
  · intro h
    simp only [verify_and_load]
    rw [h]
  · intro bytes hb
    have hv : verify_and_load path fs = backup_and_reset path fs := by
      simp only [verify_and_load]
      rw [hb]
    obtain ⟨h1, h2, h3, h4⟩ := backup_spec path fs (.invalid bytes) hb
    rw [hv]
    exact ⟨h1, h2, h3, h4⟩
  · intro v hj hnot
    have hv : verify_and_load path fs = backup_and_reset path fs := by
      simp only [verify_and_load]
      rw [hj]
      cases v with
      | arr items => exact absurd rfl (hnot items)
      | str s => rfl
      | int n => rfl
      | bool b => rfl
      | null => rfl
      | obj o => rfl
    obtain ⟨h1, h2, h3, _⟩ := backup_spec path fs (.json v) hj
    rw [hv]
    exact ⟨h1, h2, h3⟩
  · intro items hj hpe
    have hv : verify_and_load path fs = backup_and_reset path fs := by
      rw [verify_and_load_json_arr path fs items hj, hpe]
    obtain ⟨h1, h2, h3, _⟩ := backup_spec path fs (.json (.arr items)) hj
    rw [hv]
    exact ⟨h1, h2, h3⟩

/-- C2 witness: a store file holding unparseable bytes, with a stale
`.bak` already present, loads as the empty conversation; the corrupt
bytes end up at the `.bak` path (replacing the stale backup) and the
store path is gone. -/
theorem C2_load_fails_soft_witness :
    (verify_and_load "chat_memory.json"
      (fun p => if p = "chat_memory.json" then some (.invalid "not json \xc3\xb1")
        else if p = "chat_memory.json.bak" then some (.invalid "stale") else none)).1 = [] ∧
    (verify_and_load "chat_memory.json"
      (fun p => if p = "chat_memory.json" then some (.invalid "not json \xc3\xb1")
        else if p = "chat_memory.json.bak" then some (.invalid "stale") else none)).2
      ("chat_memory.json" ++ ".bak") = some (.invalid "not json \xc3\xb1") ∧
    (verify_and_load "chat_memory.json"
      (fun p => if p = "chat_memory.json" then some (.invalid "not json \xc3\xb1")
        else if p = "chat_memory.json.bak" then some (.invalid "stale") else none)).2
      "chat_memory.json" = none := by
  have h := (C2_load_fails_soft "chat_memory.json"
      (fun p => if p = "chat_memory.json" then some (.invalid "not json \xc3\xb1")
        else if p = "chat_memory.json.bak" then some (.invalid "stale") else none)).2.1
    "not json \xc3\xb1" rfl
  exact ⟨h.1, h.2.1, h.2.2.1⟩

/-- C1 (amended): at every interruption point of the `_atomic_save`
step sequence the store file is fully the old content, fully the new
content, or absent — never partially written.  After the temporary
file is written and before the replace begins (the spec's simulated
abort point) it is exactly the old content; after `os.remove` and
before `os.rename` it is absent (the remove-then-rename gap); after
the rename it is exactly the new payload. -/
theorem C1_save_interruption_states (path : String) (msgs : List Message) (fs : FS) :
    atomicSaveTemp path msgs fs path = fs path ∧
    (atomicSaveRemoved path msgs fs path = fs path ∨
      atomicSaveRemoved path msgs fs path = none) ∧
    atomic_save path msgs fs path = some (savedPayload msgs) := by
  have htmp' : ¬(path = path ++ ".tmp") := self_ne_append path ".tmp" (by decide)
  refine ⟨?_, ?_, atomicSave_self path msgs fs⟩
  · simp [atomicSaveTemp, fsWrite, htmp']
  · by_cases hfs : (fs path).isSome
    · right
      simp [atomicSaveRemoved, atomicSaveTemp, fsWrite, fsRemove, htmp', hfs]
    · left
      simp [atomicSaveRemoved, atomicSaveTemp, fsWrite, fsRemove, htmp', hfs]

/-- C1 counterexample: `_atomic_save` replaces the store file by
`os.remove` followed by `os.rename`, so at the interruption point
between the two the store path holds neither the old nor the new
content — it is absent, although the old store file existed (and the
new payload exists at the temporary path). -/
theorem C1_save_interruption_counterexample :
    atomicSaveRemoved "chat_memory.json" [⟨Role.human, "hola"⟩]
      (fun p => if p = "chat_memory.json" then some (.json (.arr .nil)) else none)
      "chat_memory.json" = none ∧
    (fun p => if p = "chat_memory.json" then some (FileContent.json (.arr .nil)) else none)
      "chat_memory.json" = some (.json (.arr .nil)) ∧
    atomicSaveRemoved "chat_memory.json" [⟨Role.human, "hola"⟩]
      (fun p => if p = "chat_memory.json" then some (.json (.arr .nil)) else none)
      ("chat_memory.json" ++ ".tmp") =
      some (savedPayload [⟨Role.human, "hola"⟩]) := by
  refine ⟨?_, rfl, ?_⟩ <;> rfl

/-- C4 (amended): save-then-load is the identity on conversations
whose messages all have non-empty content with no surrounding
whitespace and whose AI messages do not contain the literal text
`"HumanMessage"`: a fresh load from the file `_atomic_save` wrote
returns the same messages, in order, with the same roles, and leaves
the filesystem untouched.  (Without the added conditions the loader
strips or drops whitespace and can reclassify an AI message, see the
counterexample.) -/
theorem C4_roundtrip (path : String) (msgs : List Message) (fs : FS)
    (h : ∀ m ∈ msgs, m.content ≠ "" ∧ pyStrip m.content = m.content ∧
      (m.role = .ai → strContains m.content "HumanMessage" = false)) :
    verify_and_load path (atomic_save path msgs fs) =
      (msgs, atomic_save path msgs fs) := by
  have hj : atomic_save path msgs fs path =
      some (.json (.arr (JArr.ofList (savedRecords msgs)))) :=
    atomicSave_self path msgs fs
  have hsv : savedRecords msgs = msgs.map message_to_dict := by
    unfold savedRecords savedMessages
    congr 1
    refine List.filter_eq_self.mpr ?_
    intro m hm
    simpa using (h m hm).1
  rw [verify_and_load_json_arr path (atomic_save path msgs fs)
    (JArr.ofList (savedRecords msgs)) hj, hsv, processItems_mtd msgs h]
  simp [ite_isEmpty]

/-- C4 counterexample: a conversation holding the single valid message
`HumanMessage(" ")` (non-empty content) is written by `_atomic_save`
(the truthiness filter keeps `" "`), but loading strips the content to
the empty string and drops the record: the round trip returns zero
messages instead of the one saved. -/
theorem C4_roundtrip_counterexample :
    (verify_and_load "chat_memory.json"
      (atomic_save "chat_memory.json" [⟨Role.human, " "⟩] (fun _ => none))).1 = [] := by
  rfl

/-- C4 witness: the round trip is checked on a concrete two-message
conversation. -/
theorem C4_roundtrip_witness :
    verify_and_load "chat_memory.json"
        (atomic_save "chat_memory.json"
          [⟨Role.human, "hola"⟩, ⟨Role.ai, "mundo"⟩] (fun _ => none)) =
      ([⟨Role.human, "hola"⟩, ⟨Role.ai, "mundo"⟩],
       atomic_save "chat_memory.json"
         [⟨Role.human, "hola"⟩, ⟨Role.ai, "mundo"⟩] (fun _ => none)) := by
  refine C4_roundtrip "chat_memory.json" [⟨Role.human, "hola"⟩, ⟨Role.ai, "mundo"⟩]
    (fun _ => none) ?_
  intro m hm
  rcases List.mem_cons.mp hm with rfl | hm2
  · exact ⟨by decide, rfl, fun hr => nomatch hr⟩
  · rcases List.mem_cons.mp hm2 with rfl | hm3
    · exact ⟨by decide, rfl, fun _ => rfl⟩
    · cases hm3

/-- C5 (amended): for non-empty question and answer texts that carry
no surrounding whitespace, and an answer not containing the literal
text `"HumanMessage"`, a successful `save_context` appends
`HumanMessage(q)` then `AIMessage(a)` to the in-memory conversation,
flushes via `_atomic_save`, and a fresh load from the same path ends
with exactly those two messages.  (Without the added conditions the
reload holds the stripped texts — or reclassifies the answer — see
the counterexample.) -/
theorem C5_record_turn_durable (path : String) (msgs : List Message) (fs : FS)
    (q a : String) (hq1 : q ≠ "") (hq2 : pyStrip q = q)
    (ha1 : a ≠ "") (ha2 : pyStrip a = a)
    (ha3 : strContains a "HumanMessage" = false) :
    save_context path msgs fs q a =
      .ok (msgs ++ [⟨.human, q⟩, ⟨.ai, a⟩],
           atomic_save path (msgs ++ [⟨.human, q⟩, ⟨.ai, a⟩]) fs) ∧
    ∃ pre, (verify_and_load path
        (atomic_save path (msgs ++ [⟨.human, q⟩, ⟨.ai, a⟩]) fs)).1 =
      pre ++ [⟨.human, q⟩, ⟨.ai, a⟩] := by
  constructor
  · have hcond : (decide (q = "") || decide (a = "")) = false := by
      simp [hq1, ha1]
    simp [save_context, hcond]
  · have hpair : processItems (JArr.ofList
        (([⟨.human, q⟩, ⟨.ai, a⟩] : List Message).map message_to_dict)) =
        .ok [⟨.human, q⟩, ⟨.ai, a⟩] := by
      apply processItems_mtd
      intro m hm
      rcases List.mem_cons.mp hm with rfl | hm2
      · exact ⟨hq1, hq2, fun hr => nomatch hr⟩
      · rcases List.mem_cons.mp hm2 with rfl | hm3
        · exact ⟨ha1, ha2, fun _ => ha3⟩
        · cases hm3
    obtain ⟨out0, hout0⟩ := processItems_mtd_ok (savedMessages msgs)
    have hsv : savedRecords (msgs ++ [⟨.human, q⟩, ⟨.ai, a⟩]) =
        (savedMessages msgs).map message_to_dict ++
          ([⟨.human, q⟩, ⟨.ai, a⟩] : List Message).map message_to_dict := by
      unfold savedRecords savedMessages
      rw [List.filter_append, List.map_append]
      congr 2
      simp [hq1, ha1]
    have hall : processItems (JArr.ofList
        (savedRecords (msgs ++ [⟨.human, q⟩, ⟨.ai, a⟩]))) =
        .ok (out0 ++ [⟨.human, q⟩, ⟨.ai, a⟩]) := by
      rw [hsv]
      exact processItems_ofList_append _ _ _ _ hout0 hpair
    have hj : atomic_save path (msgs ++ [⟨.human, q⟩, ⟨.ai, a⟩]) fs path =
        some (.json (.arr (JArr.ofList (savedRecords (msgs ++ [⟨.human, q⟩, ⟨.ai, a⟩]))))) :=
      atomicSave_self path (msgs ++ [⟨.human, q⟩, ⟨.ai, a⟩]) fs
    refine ⟨out0, ?_⟩
    rw [verify_and_load_json_arr path _ _ hj, hall]
    simp [ite_isEmpty]

/-- C5 witness: a concrete turn recorded on an empty store. -/
theorem C5_record_turn_durable_witness :
    save_context "chat_memory.json" [] (fun _ => none) "hola" "mundo" =
      .ok ([] ++ [⟨.human, "hola"⟩, ⟨.ai, "mundo"⟩],
           atomic_save "chat_memory.json" ([] ++ [⟨.human, "hola"⟩, ⟨.ai, "mundo"⟩])
             (fun _ => none)) ∧
    ∃ pre, (verify_and_load "chat_memory.json"
        (atomic_save "chat_memory.json" ([] ++ [⟨.human, "hola"⟩, ⟨.ai, "mundo"⟩])
          (fun _ => none))).1 =
      pre ++ [⟨.human, "hola"⟩, ⟨.ai, "mundo"⟩] :=
  C5_record_turn_durable "chat_memory.json" [] (fun _ => none) "hola" "mundo"
    (by decide) rfl (by decide) rfl rfl

/-- C5 counterexample: `record_turn(" hola ", "ok")` succeeds (both
texts are truthy), but the reloaded store contains
`HumanMessage("hola")` — the stripped text — and no message with
content `" hola "`: the reload does not contain the recorded question
verbatim. -/
theorem C5_record_turn_counterexample :
    save_context "chat_memory.json" [] (fun _ => none) " hola " "ok" =
      .ok ([⟨.human, " hola "⟩, ⟨.ai, "ok"⟩],
           atomic_save "chat_memory.json" [⟨.human, " hola "⟩, ⟨.ai, "ok"⟩]
             (fun _ => none)) ∧
    (verify_and_load "chat_memory.json"
        (atomic_save "chat_memory.json" [⟨.human, " hola "⟩, ⟨.ai, "ok"⟩]
          (fun _ => none))).1 =
      [⟨.human, "hola"⟩, ⟨.ai, "ok"⟩] := by
  exact ⟨rfl, rfl⟩

/-- Whatever `extractContent` returns went through `.strip()`. -/
theorem extractContent_stripped (fields : JObj) (content : String)
    (h : extractContent fields = .ok content) : pyStrip content = content := by
  unfold extractContent at h
  cases her : extractRaw fields with
  | error e =>
    rw [her] at h
    have h' : (Except.error e : Except Unit String) = .ok content := h
    exact Except.noConfusion h'
  | ok v =>
    rw [her] at h
    cases v with
    | str s =>
      have h' : Except.ok (pyStrip s) = Except.ok content := h
      have h'' := Except.ok.inj h'
      rw [← h'']
      exact pyStrip_idem s
    | int n => exact Except.noConfusion (h : (Except.error () : Except Unit String) = _)
    | bool b => exact Except.noConfusion (h : (Except.error () : Except Unit String) = _)
    | null => exact Except.noConfusion (h : (Except.error () : Except Unit String) = _)
    | arr xs => exact Except.noConfusion (h : (Except.error () : Except Unit String) = _)
    | obj fs => exact Except.noConfusion (h : (Except.error () : Except Unit String) = _)

/-- Any message `processEntry` produces has non-empty content with no
surrounding whitespace. -/
theorem processEntry_some_content (v : JVal) (m : Message)
    (h : processEntry v = .ok (some m)) :
    m.content ≠ "" ∧ pyStrip m.content = m.content := by
  cases v with
  | obj fields =>
    simp only [processEntry] at h
    cases hec : extractContent fields with
    | error e =>
      rw [hec] at h
      have h' : (Except.error e : Except Unit (Option Message)) = .ok (some m) := h
      exact Except.noConfusion h'
    | ok content =>
      rw [hec] at h
      have hstrip := extractContent_stripped fields content hec
      have h2 : (if content = "" then Except.ok none
          else if typeIs fields "human" || mentions (JVal.obj fields) "HumanMessage" then
            Except.ok (some (⟨Role.human, content⟩ : Message))
          else if typeIs fields "ai" || mentions (JVal.obj fields) "AIMessage" then
            Except.ok (some (⟨Role.ai, content⟩ : Message))
          else Except.ok none) = Except.ok (some m) := h
      by_cases hce : content = ""
      · rw [if_pos hce] at h2
        have h' : (Except.ok (none : Option Message) : Except Unit _) = .ok (some m) := h2
        exact Option.noConfusion (Except.ok.inj h')
      · rw [if_neg hce] at h2
        split at h2
        · have h' := Option.some.inj (Except.ok.inj h2)
          rw [← h']
          exact ⟨hce, hstrip⟩
        · split at h2
          · have h' := Option.some.inj (Except.ok.inj h2)
            rw [← h']
            exact ⟨hce, hstrip⟩
          · exact Option.noConfusion (Except.ok.inj h2)
  | str s => exact Option.noConfusion (Except.ok.inj (h : Except.ok none = _))
  | int n => exact Option.noConfusion (Except.ok.inj (h : Except.ok none = _))
  | bool b => exact Option.noConfusion (Except.ok.inj (h : Except.ok none = _))
  | null => exact Option.noConfusion (Except.ok.inj (h : Except.ok none = _))
  | arr xs => exact Option.noConfusion (Except.ok.inj (h : Except.ok none = _))

/-- Every message a successful validation loop yields has non-empty
content with no surrounding whitespace. -/
theorem processItems_ok_stripped : ∀ (items : JArr) (out : List Message),
    processItems items = .ok out →
    ∀ m ∈ out, m.content ≠ "" ∧ pyStrip m.content = m.content
  | .nil, out, hout => by
    have h' : Except.ok ([] : List Message) = Except.ok out := hout
    have h'' := Except.ok.inj h'
    subst h''
    intro m hm
    cases hm
  | .cons v tl, out, hout => by
    intro m hm
    have h1' : (match processEntry v with
        | Except.error e => Except.error e
        | Except.ok none => processItems tl
        | Except.ok (some mm) => (processItems tl).map (fun ms => mm :: ms)) =
        Except.ok out := hout
    cases he : processEntry v with
    | error e =>
      rw [he] at h1'
      exact Except.noConfusion (h1' : (Except.error e : Except Unit (List Message)) = _)
    | ok o =>
      rw [he] at h1'
      cases o with
      | none => exact processItems_ok_stripped tl out h1' m hm
      | some mm =>
        have h3 : (processItems tl).map (fun ms => mm :: ms) = Except.ok out := h1'
        obtain ⟨oo, hpi, hfo⟩ := except_map_ok _ _ _ h3
        have hfo' : mm :: oo = out := hfo
        subst hfo'
        rcases List.mem_cons.mp hm with rfl | hmem
        · exact processEntry_some_content v m he
        · exact processItems_ok_stripped tl oo hpi m hmem

/-- C6 (amended): the record array written by `_atomic_save` contains
no record with EMPTY content (the truthiness filter), and the loaded
conversation never contains a message with empty or whitespace-only
content (the loader strips and then drops empties).  The writer does
NOT filter whitespace-only content — see the counterexample. -/
theorem C6_no_empty_messages :
    (∀ msgs : List Message, ∀ r ∈ savedRecords msgs,
      ∃ c, recordDataContent r = some (JVal.str c) ∧ c ≠ "") ∧
    (∀ items out, processItems items = .ok out →
      ∀ m ∈ out, m.content ≠ "" ∧ pyStrip m.content = m.content) := by
  constructor
  · intro msgs r hr
    unfold savedRecords savedMessages at hr
    obtain ⟨m, hm, rfl⟩ := List.mem_map.mp hr
    have hmc : m.content ≠ "" := by
      simpa using List.of_mem_filter hm
    exact ⟨m.content, rfl, hmc⟩
  · exact fun items out hout => processItems_ok_stripped items out hout

/-- C6 witness: the two halves checked on concrete data — the array
saved for `AIMessage("x")` and the conversation loaded from one
whitespace-padded record. -/
theorem C6_no_empty_messages_witness :
    (∃ c, recordDataContent (message_to_dict ⟨Role.ai, "x"⟩) = some (JVal.str c) ∧ c ≠ "") ∧
    ((⟨Role.human, "hola"⟩ : Message).content ≠ "" ∧
      pyStrip (⟨Role.human, "hola"⟩ : Message).content = (⟨Role.human, "hola"⟩ : Message).content) := by
  constructor
  · exact (C6_no_empty_messages).1 [⟨Role.ai, "x"⟩] (message_to_dict ⟨Role.ai, "x"⟩)
      (by simp [savedRecords, savedMessages])
  · exact (C6_no_empty_messages).2 (JArr.ofList [mkFlat "human" " hola "])
      [⟨Role.human, "hola"⟩] rfl ⟨Role.human, "hola"⟩ (List.mem_cons_self _ _)

/-- C6 counterexample: a conversation can hold `HumanMessage(" ")`
(whitespace-only content is truthy, so `save_context` accepts it and
`_atomic_save` writes it): the persisted array then contains a record
whose content is whitespace-only, contradicting the claim that such
records are never persisted. -/
theorem C6_no_empty_messages_counterexample :
    savedRecords [⟨Role.human, " "⟩] = [message_to_dict ⟨Role.human, " "⟩] ∧
    recordDataContent (message_to_dict ⟨Role.human, " "⟩) = some (JVal.str " ") ∧
    pyStrip " " = "" :=
  ⟨rfl, rfl, rfl⟩

/-- C8: for both type tags, a record in the flat legacy shape loads
exactly like the nested shape — the extracted (stripped) content, the
empty-content filtering, and the role classification (including the
`"HumanMessage"`-marker branch, which only ever matches inside the
content text) agree. -/
theorem C8_legacy_shape (t c : String) (ht : t = "human" ∨ t = "ai") (_hc : c ≠ "") :
    processEntry (mkFlat t c) = processEntry (mkNested t c) := by
  rcases ht with rfl | rfl
  · have h1 : processEntry (mkFlat "human" c) =
        (if pyStrip c = "" then Except.ok none
         else Except.ok (some ⟨.human, pyStrip c⟩)) := rfl
    have h2 : processEntry (mkNested "human" c) =
        (if pyStrip c = "" then Except.ok none
         else Except.ok (some ⟨.human, pyStrip c⟩)) := rfl
    rw [h1, h2]
  · have h1 : processEntry (mkFlat "ai" c) =
        (if pyStrip c = "" then Except.ok none
         else if mentions (mkFlat "ai" c) "HumanMessage" then
           Except.ok (some ⟨.human, pyStrip c⟩)
         else Except.ok (some ⟨.ai, pyStrip c⟩)) := rfl
    have h2 : processEntry (mkNested "ai" c) =
        (if pyStrip c = "" then Except.ok none
         else if mentions (mkNested "ai" c) "HumanMessage" then
           Except.ok (some ⟨.human, pyStrip c⟩)
         else Except.ok (some ⟨.ai, pyStrip c⟩)) := rfl
    rw [h1, h2, mentions_mkFlat_ai, mentions_mkNested_ai]

/-- C8 witness: both tags checked on concrete records. -/
theorem C8_legacy_shape_witness :
    processEntry (mkFlat "human" "hi") = processEntry (mkNested "human" "hi") ∧
    processEntry (mkFlat "ai" "hi") = processEntry (mkNested "ai" "hi") :=
  ⟨C8_legacy_shape "human" "hi" (Or.inl rfl) (by decide),
   C8_legacy_shape "ai" "hi" (Or.inr rfl) (by decide)⟩

/-- One step of the validation loop on each kind of mixed test entry:
a valid record contributes its message, an empty-content record and a
non-dict entry contribute nothing, and no kind raises. -/
theorem processItems_cons_out (e : TestEntry) (he : e.ok) (tl : JArr)
    (out : List Message) (htl : processItems tl = .ok out) :
    processItems (.cons e.toJVal tl) = .ok (e.out ++ out) := by
  cases e with
  | humanNested c =>
    obtain ⟨hs, hne⟩ := he
    have hpe : processEntry (mkNested "human" c) = .ok (some ⟨.human, c⟩) := by
      have hexp : processEntry (mkNested "human" c) =
          (if pyStrip c = "" then Except.ok none
           else Except.ok (some ⟨.human, pyStrip c⟩)) := rfl
      rw [hexp, if_neg (by rw [hs]; exact hne), hs]
    show processItems (.cons (mkNested "human" c) tl) = _
    simp only [processItems]
    rw [hpe, htl]
    rfl
  | humanFlat c =>
    obtain ⟨hs, hne⟩ := he
    have hpe : processEntry (mkFlat "human" c) = .ok (some ⟨.human, c⟩) := by
      have hexp : processEntry (mkFlat "human" c) =
          (if pyStrip c = "" then Except.ok none
           else Except.ok (some ⟨.human, pyStrip c⟩)) := rfl
      rw [hexp, if_neg (by rw [hs]; exact hne), hs]
    show processItems (.cons (mkFlat "human" c) tl) = _
    simp only [processItems]
    rw [hpe, htl]
    rfl
  | aiNested c =>
    obtain ⟨hs, hne, hmk⟩ := he
    have hm : mentions (mkNested "ai" c) "HumanMessage" = false := by
      rw [mentions_mkNested_ai]
      exact hmk
    have hpe : processEntry (mkNested "ai" c) = .ok (some ⟨.ai, c⟩) := by
      have hexp : processEntry (mkNested "ai" c) =
          (if pyStrip c = "" then Except.ok none
           else if mentions (mkNested "ai" c) "HumanMessage" then
             Except.ok (some ⟨.human, pyStrip c⟩)
           else Except.ok (some ⟨.ai, pyStrip c⟩)) := rfl
      rw [hexp, if_neg (by rw [hs]; exact hne), hm]
      simp [hs]
    show processItems (.cons (mkNested "ai" c) tl) = _
    simp only [processItems]
    rw [hpe, htl]
    rfl
  | aiFlat c =>
    obtain ⟨hs, hne, hmk⟩ := he
    have hm : mentions (mkFlat "ai" c) "HumanMessage" = false := by
      rw [mentions_mkFlat_ai]
      exact hmk
    have hpe : processEntry (mkFlat "ai" c) = .ok (some ⟨.ai, c⟩) := by
      have hexp : processEntry (mkFlat "ai" c) =
          (if pyStrip c = "" then Except.ok none
           else if mentions (mkFlat "ai" c) "HumanMessage" then
             Except.ok (some ⟨.human, pyStrip c⟩)
           else Except.ok (some ⟨.ai, pyStrip c⟩)) := rfl
      rw [hexp, if_neg (by rw [hs]; exact hne), hm]
      simp [hs]
    show processItems (.cons (mkFlat "ai" c) tl) = _
    simp only [processItems]
    rw [hpe, htl]
    rfl
  | emptyNested t c =>
    have hpe : processEntry (mkNested t c) = .ok none := by
      have hexp : processEntry (mkNested t c) =
          (if pyStrip c = "" then Except.ok none
           else if typeIs (JObj.cons "type" (.str t)
               (.cons "data" (.obj (.cons "content" (.str c) .nil)) .nil)) "human" ||
               mentions (mkNested t c) "HumanMessage" then
             Except.ok (some ⟨.human, pyStrip c⟩)
           else if typeIs (JObj.cons "type" (.str t)
               (.cons "data" (.obj (.cons "content" (.str c) .nil)) .nil)) "ai" ||
               mentions (mkNested t c) "AIMessage" then
             Except.ok (some ⟨.ai, pyStrip c⟩)
           else Except.ok none) := rfl
      have he' : pyStrip c = "" := he
      rw [hexp, if_pos he']
    show processItems (.cons (mkNested t c) tl) = _
    simp only [processItems]
    rw [hpe, htl]
    rfl
  | emptyFlat t c =>
    have hpe : processEntry (mkFlat t c) = .ok none := by
      have hexp : processEntry (mkFlat t c) =
          (if pyStrip c = "" then Except.ok none
           else if typeIs (JObj.cons "type" (.str t)
               (.cons "content" (.str c) .nil)) "human" ||
               mentions (mkFlat t c) "HumanMessage" then
             Except.ok (some ⟨.human, pyStrip c⟩)
           else if typeIs (JObj.cons "type" (.str t)
               (.cons "content" (.str c) .nil)) "ai" ||
               mentions (mkFlat t c) "AIMessage" then
             Except.ok (some ⟨.ai, pyStrip c⟩)
           else Except.ok none) := rfl
      have he' : pyStrip c = "" := he
      rw [hexp, if_pos he']
    show processItems (.cons (mkFlat t c) tl) = _
    simp only [processItems]
    rw [hpe, htl]
    rfl
  | nonDict v =>
    have hpe : processEntry v = .ok none := by
      cases v with
      | obj fs => simp [TestEntry.ok, JVal.isObj] at he
      | str s => rfl
      | int n => rfl
      | bool b => rfl
      | null => rfl
      | arr xs => rfl
    show processItems (.cons v tl) = _
    simp only [processItems]
    rw [hpe, htl]
    rfl

/-- C3 (amended): an input array mixing valid human/ai records (nested
or flat shape, content non-empty with no surrounding whitespace, and —
forced by the counterexample — ai content free of the literal text
`"HumanMessage"`), records with content that strips to empty, and
non-dict entries loads to exactly the valid records' messages, in
their original relative order; the bad entries are dropped one by one
and never abort the load. -/
theorem C3_record_filtering (es : List TestEntry) (h : ∀ e ∈ es, e.ok) :
    processItems (JArr.ofList (es.map TestEntry.toJVal)) =
      .ok ((es.map TestEntry.out).flatten) := by
  induction es with
  | nil => rfl
  | cons e tl ih =>
    have htl := ih (fun x hx => h x (List.mem_cons_of_mem e hx))
    simp only [List.map_cons, List.flatten_cons]
    show processItems (.cons e.toJVal (JArr.ofList (tl.map TestEntry.toJVal))) = _
    exact processItems_cons_out e (h e (List.mem_cons_self e tl)) _ _ htl

/-- C3 witness: a concrete mix — a nested human record, a padded
flat ai record (whitespace-only), a legacy flat ai record, a non-dict
entry, and an empty nested record — loads to exactly the two valid
messages, in order. -/
theorem C3_record_filtering_witness :
    processItems (JArr.ofList
      ([TestEntry.humanNested "hola", TestEntry.emptyFlat "ai" "  ",
        TestEntry.aiFlat "respuesta", TestEntry.nonDict (JVal.int 7),
        TestEntry.emptyNested "human" ""].map TestEntry.toJVal)) =
      .ok (([TestEntry.humanNested "hola", TestEntry.emptyFlat "ai" "  ",
        TestEntry.aiFlat "respuesta", TestEntry.nonDict (JVal.int 7),
        TestEntry.emptyNested "human" ""].map TestEntry.out).flatten) := by
  apply C3_record_filtering
  intro e he
  fin_cases he
  · exact ⟨rfl, by decide⟩
  · exact rfl
  · exact ⟨rfl, by decide, rfl⟩
  · exact rfl
  · exact rfl

/-- C3 counterexample: the record `{"type": "ai", "content":
"HumanMessage"}` is a valid ai record with non-empty content, yet the
loader classifies it as a `HumanMessage` (User role), because the
classification tests `"HumanMessage" in str(item)` before looking at
the `"ai"` tag: the load does not yield the valid record with its own
role. -/
theorem C3_record_filtering_counterexample :
    processItems (JArr.ofList [mkFlat "ai" "HumanMessage"]) =
      .ok [⟨Role.human, "HumanMessage"⟩] := by
  rfl

/-- C7 (amended): the transcript `load_chat_history` builds is exactly
the file-derived sequence, independent of the in-memory conversation:
the merge loop for the langchain source evaluates
`isinstance(msg, HumanMessage)` with a name `app.py` never imports, so
every iteration raises `NameError`, is caught per message, and appends
nothing.  In particular no message from the in-memory source is ever
added (so no cross-source duplicate can arise), while duplicate
records inside the store file itself are preserved verbatim — see the
counterexample. -/
theorem C7_merge_ignores_memory (file : Option FileContent) (mem : List Message) :
    load_chat_history file mem = load_chat_history file [] := by
  have hfold : ∀ acc : List ChatMsg, langchainPart mem acc = acc := by
    intro acc
    induction mem generalizing acc with
    | nil => rfl
    | cons m tl ih => exact ih acc
  cases file with
  | none =>
    show langchainPart mem [] = langchainPart [] []
    rw [hfold]
    rfl
  | some fc =>
    cases fc with
    | invalid b => rfl
    | json v =>
      cases v with
      | arr items =>
        show (match filePart items [] with
              | (acc, true) => langchainPart mem acc
              | (acc, false) => acc) =
            (match filePart items [] with
              | (acc, true) => langchainPart [] acc
              | (acc, false) => acc)
        rcases hfp : filePart items [] with ⟨acc, flag⟩
        cases flag with
        | false => rfl
        | true =>
          show langchainPart mem acc = langchainPart [] acc
          rw [hfold]
          rfl
      | obj o =>
        show langchainPart mem [] = langchainPart [] []
        rw [hfold]
        rfl
      | str s =>
        show langchainPart mem [] = langchainPart [] []
        rw [hfold]
        rfl
      | int n => rfl
      | bool b => rfl
      | null => rfl

/-- C7 counterexample: a store file holding the same human record
twice produces a transcript with two byte-identical entries (same role
string, same content): the first loop appends file records without any
deduplication, so the merged sequence violates the no-duplicates
claim. -/
theorem C7_merge_counterexample :
    load_chat_history (some (.json (.arr (JArr.ofList
        [mkFlat "human" "hi", mkFlat "human" "hi"]))))
      [⟨Role.ai, "hi"⟩] =
      [⟨"user", JVal.str "hi"⟩, ⟨"user", JVal.str "hi"⟩] := by
  rfl

/-- C9: `RAGSystem.query` before any successful `process_pdf` fails
with the specific guarded `ValueError` whose message tells the user to
load a document first (a distinguishable not-indexed condition, not a
crash deeper in the stack), and after `process_pdf` installs an index
the query path returns the search result and never raises that
condition. -/
theorem C9_not_indexed_guard :
    (∀ q k, RAGSystem.mkNew.query q k =
      .error "Primero debes cargar un documento PDF.") ∧
    (∀ st chunks q k, ((process_pdf st chunks).1.query q k) =
      .ok (similaritySearch chunks q k)) :=
  ⟨fun _ _ => rfl, fun _ _ _ _ => rfl⟩

/-- C10: for a dict record whose type tag is neither `"human"` nor
`"ai"` but whose extracted content is non-empty, the loader assigns
the User role whenever the Python rendering `str(item)` contains the
text `"HumanMessage"`, and otherwise the Assistant role whenever it
contains `"AIMessage"` — the role can be decided by the record's own
text, not its tag. -/
theorem C10_marker_classification (fields : JObj) (c : String)
    (hex : extractContent fields = .ok c) (hc : c ≠ "")
    (hh : typeIs fields "human" = false) (ha : typeIs fields "ai" = false) :
    (mentions (.obj fields) "HumanMessage" = true →
      processEntry (.obj fields) = .ok (some ⟨.human, c⟩)) ∧
    (mentions (.obj fields) "HumanMessage" = false →
      mentions (.obj fields) "AIMessage" = true →
      processEntry (.obj fields) = .ok (some ⟨.ai, c⟩)) := by
  constructor
  · intro hm
    simp only [processEntry]
    rw [hex]
    simp [hc, hh, hm]
  · intro hm1 hm2
    simp only [processEntry]
    rw [hex]
    simp [hc, hh, ha, hm1, hm2]

/-- C10 witness: a record tagged `"type": "x"` whose content text
mentions `HumanMessage` loads as a User message with that content. -/
theorem C10_marker_classification_witness :
    processEntry (.obj (JObj.cons "type" (.str "x")
        (.cons "content" (.str "see HumanMessage here") .nil))) =
      .ok (some ⟨Role.human, "see HumanMessage here"⟩) :=
  (C10_marker_classification
      (JObj.cons "type" (.str "x") (.cons "content" (.str "see HumanMessage here") .nil))
      "see HumanMessage here" rfl (by decide) rfl rfl).1 rfl
